import Mathlib

set_option maxHeartbeats 2000000
set_option maxRecDepth 8000

/-!
Shallow embedding of impfi (src/impfi/impfi.cpp), a PE import scanner.
Files are modelled as lists of bytes (Nat values, little-endian fields).
All structure reads in the source are fseek + fread(buf, size, 1, f);
fread with item count 1 succeeds only when the full size is available,
which readBytes models as an all-or-nothing read.  fseek on a binary
stream succeeds for any in-range offset, including offsets at or past
end of file, so seek failure paths of the source are not reachable in
the model and are not given error constructors.  The embedding follows
the x64 build of the source: 8-byte IMAGE_THUNK_DATA entries, machine
type IMAGE_FILE_MACHINE_AMD64 (0x8664) and optional-header magic
IMAGE_NT_OPTIONAL_HDR64_MAGIC (0x20B), IMAGE_NT_HEADERS of 264 bytes.
-/

deriving instance DecidableEq for Except

namespace Impfi

/-- Little-endian value of a byte list: the head is the least significant byte. -/
def leVal : List Nat → Nat
  | [] => 0
  | b :: rest => b + 256 * leVal rest

/-- Value of a 2-byte little-endian field (WORD). -/
def le16 (l : List Nat) : Nat := leVal (l.take 2)

/-- Value of a 4-byte little-endian field (DWORD). -/
def le32 (l : List Nat) : Nat := leVal (l.take 4)

/-- Value of an 8-byte little-endian field (ULONGLONG, the x64 thunk entry). -/
def le64 (l : List Nat) : Nat := leVal (l.take 8)

/-- Model of fseek to off followed by fread of exactly n bytes: yields the n
bytes at off when they exist, and fails when the file ends before off + n. -/
def readBytes (file : List Nat) (off n : Nat) : Option (List Nat) :=
  if off + n ≤ file.length then some ((file.drop off).take n) else none

/-- Error outcomes of the per-file pipeline, one constructor per printf-guarded
early return of the source.  unsupportedArchitecture is the silent return 5 of
ReadNtHeaders (machine-type mismatch); every other constructor corresponds to a
return that is preceded by a printf diagnostic. -/
inductive Err where
  | magicReadFail
  | invalidMagic
  | dosHeaderReadFail
  | ntHeadersReadFail
  | invalidSignature
  | unsupportedArchitecture
  | inconsistentOptionalHeader
  | truncatedSectionTable
  | importDescriptorReadFail
  | dllNameReadFail
  | thunkReadFail
  | hintReadFail
  | thunkNameReadFail
deriving DecidableEq

/-- Whether the error path prints a diagnostic in the source.  Every error
return of the source is preceded by a printf except return 5 of ReadNtHeaders,
which the source comments as failing silently to ignore other architectures. -/
def errLogged : Err → Bool
  | .unsupportedArchitecture => false
  | _ => true

/-- ReadMagicNumber: read the 2-byte e_magic at offset 0 and require the value
0x5A4D, the multi-character constant ZM of the source, which is the
little-endian reading of the bytes MZ. -/
def readMagicNumber (file : List Nat) : Except Err Unit :=
  match readBytes file 0 2 with
  | none => .error .magicReadFail
  | some m => if le16 m = 0x5A4D then .ok () else .error .invalidMagic

/-- Fields of IMAGE_NT_HEADERS that the rest of the pipeline consumes, plus the
file offset at which the section table starts (the stream position right after
the NT headers fread). -/
structure NtHeaders where
  numberOfSections : Nat
  importDirVA : Nat
  importDirSize : Nat
  sectionsStart : Nat
deriving DecidableEq

/-- ReadNtHeaders: read the remaining 62 bytes of the 64-byte IMAGE_DOS_HEADER
(e_lfanew is the DWORD at DOS offset 60, hence at offset 58 of this block),
seek to e_lfanew, read the 264-byte IMAGE_NT_HEADERS, then check the PE
signature (0x4550, bytes PE petrified little-endian), the machine type
(WORD at NT offset 4) against 0x8664, and the optional-header magic (WORD at
NT offset 24) against 0x20B.  NumberOfSections is the WORD at NT offset 6;
the import data directory entry sits at NT offset 144 (VirtualAddress) and
148 (Size): signature 4 + file header 20 + directory entry 1 at optional-header
offset 120. -/
def readNtHeaders (file : List Nat) : Except Err NtHeaders :=
  match readBytes file 2 62 with
  | none => .error .dosHeaderReadFail
  | some dosRest =>
    match readBytes file (le32 (dosRest.drop 58)) 264 with
    | none => .error .ntHeadersReadFail
    | some nt =>
      if le32 nt ≠ 0x4550 then .error .invalidSignature
      else if le16 (nt.drop 4) ≠ 0x8664 then .error .unsupportedArchitecture
      else if le16 (nt.drop 24) ≠ 0x20B then .error .inconsistentOptionalHeader
      else .ok ⟨le16 (nt.drop 6), le32 (nt.drop 144), le32 (nt.drop 148),
                le32 (dosRest.drop 58) + 264⟩

/-- Fields of IMAGE_SECTION_HEADER that the program reads: Misc.VirtualSize at
record offset 8, VirtualAddress at offset 12, PointerToRawData at offset 20. -/
structure SectionHeader where
  virtualSize : Nat
  virtualAddress : Nat
  pointerToRawData : Nat
deriving DecidableEq

/-- Decode one 40-byte IMAGE_SECTION_HEADER record. -/
def parseSection (sb : List Nat) : SectionHeader :=
  ⟨le32 (sb.drop 8), le32 (sb.drop 12), le32 (sb.drop 20)⟩

/-- ReadSections: read NumberOfSections consecutive 40-byte section records
starting right after the NT headers; any short read is TruncatedSectionTable. -/
def readSections (file : List Nat) (off : Nat) : Nat → Except Err (List SectionHeader)
  | 0 => .ok []
  | n + 1 =>
    match readBytes file off 40 with
    | none => .error .truncatedSectionTable
    | some sb => (readSections file (off + 40) n).map (parseSection sb :: ·)

/-- SectionRvaFileOffset: scan the section list in declaration order and return
the translated file offset of the first section whose virtual range contains
the RVA, or 0 when no section contains it.  All arithmetic is DWORD
arithmetic in the source, hence the explicit reductions modulo 2^32 on the
range end and on the translated offset (the subtraction cannot underflow
because the branch guard gives virtualAddress ≤ rva). -/
def sectionRvaFileOffset (sections : List SectionHeader) (rva : Nat) : Nat :=
  match sections with
  | [] => 0
  | s :: rest =>
    if s.virtualAddress ≤ rva ∧ rva < (s.virtualAddress + s.virtualSize) % 2 ^ 32 then
      ((rva - s.virtualAddress) + s.pointerToRawData) % 2 ^ 32
    else sectionRvaFileOffset rest rva

/-- Fields of IMAGE_IMPORT_DESCRIPTOR that the program uses: Name is the DWORD
at record offset 12 and FirstThunk the DWORD at record offset 16. -/
structure ImportDescriptor where
  name : Nat
  firstThunk : Nat
deriving DecidableEq

/-- Decode one 20-byte IMAGE_IMPORT_DESCRIPTOR record. -/
def parseDescriptor (db : List Nat) : ImportDescriptor :=
  ⟨le32 (db.drop 12), le32 (db.drop 16)⟩

/-- Import descriptor count of ReadImportDescriptors: the source computes
Size / sizeof(IMAGE_IMPORT_DESCRIPTOR) - 1 in unsigned arithmetic and stores
the result in a DWORD, so a quotient of zero wraps around to 2^32 - 1 instead
of clamping at zero; this definition reproduces that wrap. -/
def numberOfEntries (size : Nat) : Nat := (size / 20 + (2 ^ 32 - 1)) % 2 ^ 32

/-- First loop of ReadImportDescriptors: read count consecutive 20-byte import
descriptor records starting at off; any short read aborts the file. -/
def readImportDescriptorArray (file : List Nat) (off : Nat) :
    Nat → Except Err (List ImportDescriptor)
  | 0 => .ok []
  | n + 1 =>
    match readBytes file off 20 with
    | none => .error .importDescriptorReadFail
    | some db => (readImportDescriptorArray file (off + 20) n).map (parseDescriptor db :: ·)

/-- Name stored from a 32-byte buffer: the source forces Name[31] = 0 and then
constructs a std::string, which keeps the bytes before the first NUL, so at
most the first 31 bytes survive and a zero byte among them truncates earlier. -/
def truncName (bs : List Nat) : List Nat := (bs.take 31).takeWhile (fun b => b ≠ 0)

/-- Inner thunk loop of ReadImportDescriptors for one descriptor.  Each
iteration seeks to thunkOffset, reads one 8-byte thunk entry, truncates its
value to a DWORD, resolves that RVA through the section table, reads the
2-byte hint of the import-by-name record there, stops when the hint equals
0x5A4D (the MZ sentinel of the source), and otherwise reads the 32-byte name
buffer that follows the hint and advances thunkOffset by 8.  The second
component of the result is the list of RVA arguments handed to
sectionRvaFileOffset, in call order.  The source loop is unbounded, but an
iteration can only continue after reading 8 bytes at thunkOffset, and
thunkOffset grows by 8 per iteration, so a file of length L admits fewer
than L + 1 iterations; the fuel argument makes that bound explicit and
thunkWalkRun below always supplies enough fuel (theorem thunkWalk_fuel_congr
shows the fuel value is irrelevant beyond the bound). -/
def thunkWalk (file : List Nat) (sections : List SectionHeader) :
    Nat → Nat → Except Err (List (List Nat)) × List Nat
  | 0, _ => (.error .thunkReadFail, [])
  | fuel + 1, thunkOffset =>
    match readBytes file thunkOffset 8 with
    | none => (.error .thunkReadFail, [])
    | some tb =>
      match readBytes file (sectionRvaFileOffset sections (le64 tb % 2 ^ 32)) 2 with
      | none => (.error .hintReadFail, [le64 tb % 2 ^ 32])
      | some hb =>
        if le16 hb = 0x5A4D then (.ok [], [le64 tb % 2 ^ 32])
        else
          match readBytes file (sectionRvaFileOffset sections (le64 tb % 2 ^ 32) + 2) 32 with
          | none => (.error .thunkNameReadFail, [le64 tb % 2 ^ 32])
          | some nb =>
            match thunkWalk file sections fuel (thunkOffset + 8) with
            | (r, tr) => (r.map (truncName nb :: ·), le64 tb % 2 ^ 32 :: tr)

/-- Thunk walk with the always-sufficient fuel value file.length + 1. -/
def thunkWalkRun (file : List Nat) (sections : List SectionHeader) (thunkOffset : Nat) :
    Except Err (List (List Nat)) × List Nat :=
  thunkWalk file sections (file.length + 1) thunkOffset

/-- Second loop of ReadImportDescriptors: for each descriptor, resolve its Name
RVA, read the 32-byte DLL-name buffer there, then resolve its FirstThunk RVA
and run the thunk walk from that offset.  Returns the DLL names and the
per-DLL symbol-name lists, together with the list of RVA arguments handed to
sectionRvaFileOffset in call order. -/
def readDescriptorNames (file : List Nat) (sections : List SectionHeader) :
    List ImportDescriptor → Except Err (List (List Nat) × List (List (List Nat))) × List Nat
  | [] => (.ok ([], []), [])
  | d :: rest =>
    match readBytes file (sectionRvaFileOffset sections d.name) 32 with
    | none => (.error .dllNameReadFail, [d.name])
    | some nb =>
      match thunkWalkRun file sections (sectionRvaFileOffset sections d.firstThunk) with
      | (.error e, tr) => (.error e, d.name :: d.firstThunk :: tr)
      | (.ok names, tr) =>
        match readDescriptorNames file sections rest with
        | (r, tr2) =>
          (r.map (fun p => (truncName nb :: p.1, names :: p.2)),
           d.name :: d.firstThunk :: (tr ++ tr2))

/-- ReadImportDescriptors: derive the entry count from the import data
directory Size, resolve the directory VirtualAddress, read the descriptor
array there, then read each DLL name and walk each thunk array. -/
def readImportDescriptors (file : List Nat) (sections : List SectionHeader)
    (importVA importSize : Nat) :
    Except Err (List ImportDescriptor × List (List Nat) × List (List (List Nat))) × List Nat :=
  match readImportDescriptorArray file (sectionRvaFileOffset sections importVA)
      (numberOfEntries importSize) with
  | .error e => (.error e, [importVA])
  | .ok ds =>
    match readDescriptorNames file sections ds with
    | (r, tr) => (r.map (fun p => (ds, p.1, p.2)), importVA :: tr)

/-- Innermost matching loop of main: compare one extracted symbol name with
every requested import in order; each equal pair increments the count, and
when more than one import was requested (the many flag) the requested name is
also appended to the matched list. -/
def tallyOne (nm : List Nat) (reqs : List (List Nat)) (many : Bool) : Nat × List (List Nat) :=
  match reqs with
  | [] => (0, [])
  | r :: rest =>
    match tallyOne nm rest many with
    | t => if nm = r then (t.1 + 1, if many then r :: t.2 else t.2) else t

/-- Middle matching loop of main: tally every symbol name of one DLL. -/
def tallyNames (names : List (List Nat)) (reqs : List (List Nat)) (many : Bool) :
    Nat × List (List Nat) :=
  match names with
  | [] => (0, [])
  | nm :: rest =>
    match tallyOne nm reqs many, tallyNames rest reqs many with
    | a, b => (a.1 + b.1, a.2 ++ b.2)

/-- Outer matching loop of main: tally the symbol names of every DLL in order. -/
def tallyAll (thunkNames : List (List (List Nat))) (reqs : List (List Nat)) (many : Bool) :
    Nat × List (List Nat) :=
  match thunkNames with
  | [] => (0, [])
  | l :: rest =>
    match tallyNames l reqs many, tallyAll rest reqs many with
    | a, b => (a.1 + b.1, a.2 ++ b.2)

/-- Payload of one emitted result line of main: the byte size obtained by
seeking to the end of the file, the match count, and the matched names that
were streamed into the first string stream (empty unless more than one import
name was requested). -/
structure ScanPayload where
  sizeInBytes : Nat
  importCount : Nat
  matched : List (List Nat)
deriving DecidableEq

/-- Emission step of main: a result is produced exactly when the match count
is nonzero. -/
def emitResult (size : Nat) (t : Nat × List (List Nat)) : Option ScanPayload :=
  if t.1 ≠ 0 then some ⟨size, t.1, t.2⟩ else none

/-- Tail of the per-file body of main, taking the outcome of
ReadImportDescriptors: an error aborts the file, and otherwise the extracted
symbol names are tallied against the requested imports (the many flag is
numImports > 1) and a payload is emitted when any matched; the reported size
is the whole file length, as main obtains it by seeking to the end. -/
def tallyAndEmit (reqs : List (List Nat)) (file : List Nat)
    (w : Except Err (List ImportDescriptor × List (List Nat) × List (List (List Nat))) ×
      List Nat) : Except Err (Option ScanPayload) :=
  match w with
  | (.error e, _) => .error e
  | (.ok (_, _, thunkNames), _) =>
    .ok (emitResult file.length (tallyAll thunkNames reqs (decide (1 < reqs.length))))

/-- Per-file body of the main loop: run ReadMagicNumber, ReadNtHeaders,
ReadSections and ReadImportDescriptors in order, propagating the first error,
then tally the extracted symbol names against the requested imports and emit a
payload when any matched.  The many flag handed to the tally is
numImports > 1, and the reported size is the whole file length. -/
def processFile (reqs : List (List Nat)) (file : List Nat) : Except Err (Option ScanPayload) :=
  match readMagicNumber file with
  | .error e => .error e
  | .ok _ =>
    match readNtHeaders file with
    | .error e => .error e
    | .ok nt =>
      match readSections file nt.sectionsStart nt.numberOfSections with
      | .error e => .error e
      | .ok sections =>
        tallyAndEmit reqs file
          (readImportDescriptors file sections nt.importDirVA nt.importDirSize)

/-- Diagnostic that scanning one file leaves in the log: errors are logged
except the silent architecture filter, and non-error outcomes log nothing. -/
def logOf (reqs : List (List Nat)) (file : List Nat) : Option Err :=
  match processFile reqs file with
  | .error e => if errLogged e then some e else none
  | .ok _ => none

/-- Directory loop of main: process each candidate file in order.  A file that
errors is skipped (its diagnostic, if any, is appended to the log) and a file
that matches is emitted with the current result number, which increments only
on emission. -/
def scanFiles (reqs : List (List Nat)) :
    List (List Nat) → Nat → List (Nat × ScanPayload) × List Err
  | [], _ => ([], [])
  | f :: rest, k =>
    match processFile reqs f with
    | .error e =>
      match scanFiles reqs rest k with
      | (rs, ls) => (rs, (if errLogged e then [e] else []) ++ ls)
    | .ok none => scanFiles reqs rest k
    | .ok (some p) =>
      match scanFiles reqs rest (k + 1) with
      | (rs, ls) => ((k, p) :: rs, ls)

/-- Per-iteration view of the thunk walk used to state its characterization:
the DWORD value of the thunk entry that iteration j of a walk starting at off0
reads, when that read succeeds. -/
def thunkAddrAt (file : List Nat) (off0 j : Nat) : Option Nat :=
  (readBytes file (off0 + 8 * j) 8).map (fun tb => le64 tb % 2 ^ 32)

/-- Hint value that iteration j of the thunk walk reads, when both reads of
that iteration succeed. -/
def thunkHintAt (file : List Nat) (sections : List SectionHeader) (off0 j : Nat) : Option Nat :=
  match thunkAddrAt file off0 j with
  | none => none
  | some a => (readBytes file (sectionRvaFileOffset sections a) 2).map le16

/-- Stored symbol name that iteration j of the thunk walk produces, when all
reads of that iteration succeed. -/
def thunkNameAt (file : List Nat) (sections : List SectionHeader) (off0 j : Nat) :
    Option (List Nat) :=
  match thunkAddrAt file off0 j with
  | none => none
  | some a => (readBytes file (sectionRvaFileOffset sections a + 2) 32).map truncName

/-- Shorthand for a run of zero bytes. -/
def zs (n : Nat) : List Nat := List.replicate n 0

/-- Import-section payload of the sample files, placed at file offset 368,
which is RVA 0x1000 under sampleSections: one import descriptor whose Name RVA
is 0x1028 (the DLL name, the single byte 65) and whose FirstThunk RVA is
0x1048, a zero terminator descriptor, the thunk array (one entry pointing at
the import-by-name record at RVA 0x1058, then a zero entry), and finally
the import-by-name record (hint 0, name the single byte 66). -/
def sampleImportData : List Nat :=
  zs 12 ++ [0x28, 0x10, 0, 0] ++ [0x48, 0x10, 0, 0]
    ++ zs 20
    ++ [65] ++ zs 31
    ++ [0x58, 0x10, 0, 0, 0, 0, 0, 0]
    ++ zs 8
    ++ [0, 0]
    ++ [66] ++ zs 31

/-- Minimal well-formed x64 PE image used as a concrete test input: MZ magic,
e_lfanew 64, PE signature, machine 0x8664, one section, optional magic 0x20B,
an import data directory with the given VirtualAddress and Size at NT offsets
144 and 148, a single section header mapping RVA 0x1000 onto file offset 368,
and the import payload above.  Total length 490 bytes. -/
def mkSampleFile (importVA importSize : Nat) : List Nat :=
  [0x4D, 0x5A] ++ zs 58 ++ [64, 0, 0, 0]
    ++ [0x50, 0x45, 0, 0]
    ++ [0x64, 0x86] ++ [1, 0] ++ zs 16
    ++ [0x0B, 0x02] ++ zs 118
    ++ [importVA % 256, importVA / 256 % 256, importVA / 65536 % 256, importVA / 16777216 % 256]
    ++ [importSize % 256, importSize / 256 % 256,
        importSize / 65536 % 256, importSize / 16777216 % 256]
    ++ zs 112
    ++ (zs 8 ++ [0, 0x10, 0, 0] ++ [0, 0x10, 0, 0] ++ zs 4 ++ [0x70, 1, 0, 0] ++ zs 16)
    ++ sampleImportData

/-- Sample file with a well-formed import directory of Size 40 = two
descriptor slots, one real descriptor plus the zero terminator slot. -/
def sampleFile : List Nat := mkSampleFile 0x1000 40

/-- Sample file identical to sampleFile except that its import data directory
has VirtualAddress 0 and Size 0, the shape of an executable without imports. -/
def zeroImportFile : List Nat := mkSampleFile 0 0

/-- Section list that ReadSections extracts from the sample files. -/
def sampleSections : List SectionHeader := [⟨0x1000, 0x1000, 368⟩]

/-- Twenty-byte file whose first bytes are a properly NUL-terminated one-byte
name, used to exercise the fixed 32-byte read near end of file. -/
def shortFile : List Nat := [65, 0] ++ zs 18

/-- Helper: a successful readBytes witnesses that the file reaches off + n. -/
theorem readBytes_some_le {file : List Nat} {off n : Nat} {bs : List Nat}
    (h : readBytes file off n = some bs) : off + n ≤ file.length := by
  by_cases hc : off + n ≤ file.length
  · exact hc
  · simp [readBytes, hc] at h

/-- Helper: readBytes fails exactly when the file ends before off + n. -/
theorem readBytes_eq_none {file : List Nat} {off n : Nat}
    (h : file.length < off + n) : readBytes file off n = none := by
  simp [readBytes]
  omega

/-- C1 (code_bug): the import-directory entry count is directorySize / 20 - 1
computed in unsigned 32-bit arithmetic, so a directory Size of zero wraps
around to 2^32 - 1 instead of being treated as no imports: on a file whose
own import data directory is zeroed (zeroImportFile) the walker tries to read
2^32 - 1 descriptors starting at the unresolved offset 0 and fails with a
short descriptor read, rather than succeeding with an empty import list. -/
theorem numberOfEntries_zero_size_underflows :
    numberOfEntries 0 = 4294967295 ∧ numberOfEntries 40 = 1 ∧ numberOfEntries 100 = 4 ∧
    processFile [[66]] zeroImportFile = .error .importDescriptorReadFail ∧
    processFile [[66]] zeroImportFile ≠ .ok none := by
  exact ⟨by decide, by decide, by decide, by decide, by decide⟩

/-- C3: sectionRvaFileOffset is the first-match linear scan over the section
list in declaration order: it returns the translated offset
(rva - virtualAddress) + pointerToRawData (reduced modulo 2^32, as the source
computes it in DWORD arithmetic) for the first section whose virtual range
[virtualAddress, virtualAddress + virtualSize) (range end likewise a DWORD)
contains the address, and 0 (NotMapped) when no section contains it.  Being a
pure function of the section list and the address, it is deterministic. -/
theorem sectionRvaFileOffset_first_match :
    ∀ (sections : List SectionHeader) (rva : Nat),
      sectionRvaFileOffset sections rva =
        (sections.find? (fun s =>
            decide (s.virtualAddress ≤ rva ∧
              rva < (s.virtualAddress + s.virtualSize) % 2 ^ 32))).elim
          0 (fun s => ((rva - s.virtualAddress) + s.pointerToRawData) % 2 ^ 32) := by
  intro sections rva
  induction sections with
  | nil => rfl
  | cons s rest ih =>
    by_cases h : s.virtualAddress ≤ rva ∧ rva < (s.virtualAddress + s.virtualSize) % 2 ^ 32
    · simp only [sectionRvaFileOffset]
      rw [if_pos h,
        @List.find?_cons_of_pos _ (fun s : SectionHeader => decide (s.virtualAddress ≤ rva ∧
          rva < (s.virtualAddress + s.virtualSize) % 2 ^ 32)) s rest (decide_eq_true h)]
      rfl
    · simp only [sectionRvaFileOffset]
      rw [if_neg h,
        @List.find?_cons_of_neg _ (fun s : SectionHeader => decide (s.virtualAddress ≤ rva ∧
          rva < (s.virtualAddress + s.virtualSize) % 2 ^ 32)) s rest
          (by simpa using decide_eq_false h)]
      exact ih

/-- C4 counterexample: on the sample file the thunk walk reads the zero
terminator thunk entry and passes its value 0 straight to
sectionRvaFileOffset (0 appears in the trace of resolver arguments), so the
walker does not check zero-valued terminator addresses before resolving
them. -/
theorem zero_passed_to_resolve_cex :
    0 ∈ (thunkWalkRun sampleFile sampleSections 440).2 := by decide

/-- C4 (amended): the Import Table Walker performs no zero checks before
address resolution: the DLL-name RVA of every processed descriptor, and the
value of every successfully read thunk entry, zero-valued terminators
included, are passed to sectionRvaFileOffset, and the returned offset, 0 and
NotMapped alike, is used directly as the position of the following read. -/
theorem resolver_called_without_zero_check :
    (∀ (file : List Nat) (sections : List SectionHeader) (d : ImportDescriptor)
        (rest : List ImportDescriptor),
        d.name ∈ (readDescriptorNames file sections (d :: rest)).2) ∧
    (∀ (file : List Nat) (sections : List SectionHeader) (off : Nat) (tb : List Nat),
        readBytes file off 8 = some tb →
        le64 tb % 2 ^ 32 ∈ (thunkWalkRun file sections off).2) := by
  constructor
  · intro file sections d rest
    simp only [readDescriptorNames]
    cases h32 : readBytes file (sectionRvaFileOffset sections d.name) 32 with
    | none => simp
    | some nb =>
      rcases hw : thunkWalkRun file sections (sectionRvaFileOffset sections d.firstThunk)
        with ⟨r, tr⟩
      cases r with
      | error e => simp [hw]
      | ok names =>
        rcases hr : readDescriptorNames file sections rest with ⟨r2, tr2⟩
        simp [hw, hr]
  · intro file sections off tb h8
    unfold thunkWalkRun
    simp only [thunkWalk, h8]
    cases hh : readBytes file (sectionRvaFileOffset sections (le64 tb % 2 ^ 32)) 2 with
    | none => simp
    | some hb =>
      by_cases hmz : le16 hb = 0x5A4D
      · simp [hmz]
      · simp only [if_neg hmz]
        cases hn : readBytes file
            (sectionRvaFileOffset sections (le64 tb % 2 ^ 32) + 2) 32 with
        | none => simp
        | some nb =>
          rcases hw : thunkWalk file sections file.length (off + 8) with ⟨r, tr⟩
          simp [hw]

/-- C4 witness: concrete instances of the amended claim on the sample file,
including the zero thunk terminator whose value 0 reaches the resolver. -/
theorem resolver_called_without_zero_check_witness :
    (0x1028 ∈ (readDescriptorNames sampleFile sampleSections [⟨0x1028, 0x1048⟩]).2) ∧
    readBytes sampleFile 448 8 = some (zs 8) ∧
    0 ∈ (thunkWalkRun sampleFile sampleSections 448).2 := by
  refine ⟨resolver_called_without_zero_check.1 sampleFile sampleSections ⟨0x1028, 0x1048⟩ [],
    by decide, ?_⟩
  have h := resolver_called_without_zero_check.2 sampleFile sampleSections 448 (zs 8) (by decide)
  have hz : le64 (zs 8) % 2 ^ 32 = 0 := by decide
  rwa [hz] at h

/-- C8: scanning the same file twice with the same requested imports yields
two results with identical payloads: the same byte size, the same match
count, and the same matched names in the same order; only the running result
number differs, and no diagnostics are produced. -/
theorem scan_deterministic_on_duplicate :
    ∀ (reqs : List (List Nat)) (b : List Nat) (k : Nat) (p : ScanPayload),
      processFile reqs b = .ok (some p) →
      scanFiles reqs [b, b] k = ([(k, p), (k + 1, p)], []) := by
  intro reqs b k p h
  simp [scanFiles, h]

/-- C8 witness: the sample file scanned twice yields payload 490 bytes, one
match, both times. -/
theorem scan_deterministic_on_duplicate_witness :
    processFile [[66]] sampleFile = .ok (some ⟨490, 1, []⟩) ∧
    scanFiles [[66]] [sampleFile, sampleFile] 0 = ([(0, ⟨490, 1, []⟩), (1, ⟨490, 1, []⟩)], []) :=
  ⟨by decide, scan_deterministic_on_duplicate [[66]] sampleFile 0 ⟨490, 1, []⟩ (by decide)⟩

/-- C9: for a file that passed the magic check (so its first two bytes read
as the value 0x5A4D), a zero-valued thunk entry terminates the thunk walk:
the zero value resolves to 0 (NotMapped, assuming no section maps address 0),
the hint is then read at file offset 0, equals the legacy-executable magic,
and the sentinel break fires, ending the walk successfully with no further
name appended. -/
theorem zero_thunk_walk_terminates :
    ∀ (file : List Nat) (sections : List SectionHeader) (off : Nat),
      readMagicNumber file = .ok () →
      readBytes file off 8 = some (zs 8) →
      sectionRvaFileOffset sections 0 = 0 →
      thunkWalkRun file sections off = (.ok [], [0]) := by
  intro file sections off hm hr hres
  unfold readMagicNumber at hm
  cases h2 : readBytes file 0 2 with
  | none => rw [h2] at hm; exact absurd hm (by simp)
  | some m =>
    rw [h2] at hm
    by_cases hmz : le16 m = 0x5A4D
    · have hz : le64 (zs 8) % 2 ^ 32 = 0 := by decide
      unfold thunkWalkRun
      simp only [thunkWalk, hr, hz, hres, h2, hmz, if_true]
    · simp [hmz] at hm

/-- C9 witness: the zero terminator thunk of the sample file at offset 448
ends the walk via the MZ sentinel read at file offset 0. -/
theorem zero_thunk_walk_terminates_witness :
    readMagicNumber sampleFile = .ok () ∧
    readBytes sampleFile 448 8 = some (zs 8) ∧
    sectionRvaFileOffset sampleSections 0 = 0 ∧
    thunkWalkRun sampleFile sampleSections 448 = (.ok [], [0]) :=
  ⟨by decide, by decide, by decide,
    zero_thunk_walk_terminates sampleFile sampleSections 448 (by decide) (by decide) (by decide)⟩

/-- C10: every DLL-name and symbol-name read demands the full 32-byte buffer
at the resolved offset: when fewer than 32 bytes remain before end of file the
whole file is rejected, with dllNameReadFail for a DLL name and
thunkNameReadFail for a symbol name, regardless of whether the name string is
already NUL-terminated inside the remaining bytes. -/
theorem name_read_requires_full_buffer :
    (∀ (file : List Nat) (sections : List SectionHeader) (d : ImportDescriptor)
        (rest : List ImportDescriptor),
        file.length < sectionRvaFileOffset sections d.name + 32 →
        (readDescriptorNames file sections (d :: rest)).1 = .error .dllNameReadFail) ∧
    (∀ (file : List Nat) (sections : List SectionHeader) (off noff : Nat) (tb hb : List Nat),
        readBytes file off 8 = some tb →
        noff = sectionRvaFileOffset sections (le64 tb % 2 ^ 32) →
        readBytes file noff 2 = some hb →
        le16 hb ≠ 0x5A4D →
        file.length < noff + 2 + 32 →
        (thunkWalkRun file sections off).1 = .error .thunkNameReadFail) := by
  constructor
  · intro file sections d rest hlen
    have hnone : readBytes file (sectionRvaFileOffset sections d.name) 32 = none :=
      readBytes_eq_none hlen
    simp [readDescriptorNames, hnone]
  · intro file sections off noff tb hb h8 hoff hh hmz hlen
    subst hoff
    have hnone : readBytes file
        (sectionRvaFileOffset sections (le64 tb % 2 ^ 32) + 2) 32 = none :=
      readBytes_eq_none (by omega)
    unfold thunkWalkRun
    simp only [thunkWalk, h8, hh]
    rw [if_neg hmz, hnone]

/-- C10 witness: a 20-byte file holding a NUL-terminated one-byte name at the
resolved offset is still rejected, both on the DLL-name read and on the
symbol-name read. -/
theorem name_read_requires_full_buffer_witness :
    (readDescriptorNames shortFile [] [⟨0, 0⟩]).1 = .error .dllNameReadFail ∧
    (thunkWalkRun shortFile [] 0).1 = .error .thunkNameReadFail :=
  ⟨name_read_requires_full_buffer.1 shortFile [] ⟨0, 0⟩ [] (by decide),
   name_read_requires_full_buffer.2 shortFile [] 0 0 [65, 0, 0, 0, 0, 0, 0, 0] [65, 0]
     (by decide) (by decide) (by decide) (by decide) (by decide)⟩

/-- C6: per-file error isolation of the scan loop: any block of erroring
files is simply skipped, leaving the results (and their numbering) of the
remaining files unchanged and contributing only its per-file diagnostics to
the log; moreover unsupportedArchitecture is the single error that logs no
diagnostic, while every other error does. -/
theorem error_isolation_and_silent_arch :
    (∀ (reqs : List (List Nat)) (k : Nat) (bads rest : List (List Nat)),
        (∀ b ∈ bads, ∃ e, processFile reqs b = .error e) →
        scanFiles reqs (bads ++ rest) k =
          ((scanFiles reqs rest k).1,
           bads.filterMap (logOf reqs) ++ (scanFiles reqs rest k).2)) ∧
    errLogged .unsupportedArchitecture = false ∧
    (∀ e : Err, e ≠ .unsupportedArchitecture → errLogged e = true) := by
  refine ⟨?_, rfl, ?_⟩
  · intro reqs k bads rest hbad
    induction bads with
    | nil => simp
    | cons b bs ih =>
      obtain ⟨e, he⟩ := hbad b (List.mem_cons_self b bs)
      have ih2 := ih (fun x hx => hbad x (List.mem_cons_of_mem _ hx))
      rcases hs : scanFiles reqs (bs ++ rest) k with ⟨rs, ls⟩
      rw [hs] at ih2
      simp only [List.cons_append, scanFiles, he, hs, List.filterMap_cons, logOf]
      cases hel : errLogged e <;>
        simp_all [List.append_assoc]
  · intro e he
    cases e <;> simp_all [errLogged]

/-- C6 witness: an empty file (magic read fails, a logged error) placed
before the sample file is skipped, leaving the result of the sample file
unchanged; invalidMagic is a logged error. -/
theorem error_isolation_and_silent_arch_witness :
    scanFiles [[66]] ([[]] ++ [sampleFile]) 0 =
      ((scanFiles [[66]] [sampleFile] 0).1,
       ([[]] : List (List Nat)).filterMap (logOf [[66]]) ++ (scanFiles [[66]] [sampleFile] 0).2) ∧
    errLogged .invalidMagic = true := by
  refine ⟨error_isolation_and_silent_arch.1 [[66]] 0 [[]] [sampleFile] ?_,
    error_isolation_and_silent_arch.2.2 .invalidMagic (by decide)⟩
  intro b hb
  have hbe : b = ([] : List Nat) := by simpa using hb
  exact ⟨.magicReadFail, by rw [hbe]; decide⟩

/-- Helper: closed form of the innermost request loop of main. -/
theorem tallyOne_eq (nm : List Nat) (reqs : List (List Nat)) (many : Bool) :
    tallyOne nm reqs many =
      ((reqs.filter (fun r => decide (nm = r))).length,
       if many then reqs.filter (fun r => decide (nm = r)) else []) := by
  induction reqs with
  | nil => cases many <;> rfl
  | cons r rest ih =>
    by_cases h : nm = r
    · simp only [tallyOne, ih, List.filter_cons, decide_eq_true h, if_pos h]
      cases many <;> simp
    · simp only [tallyOne, ih, List.filter_cons, decide_eq_false h, if_neg h]
      cases many <;> simp

/-- Helper: closed form of the per-DLL matching loop of main. -/
theorem tallyNames_eq (names : List (List Nat)) (reqs : List (List Nat)) (many : Bool) :
    tallyNames names reqs many =
      ((names.flatMap (fun nm => reqs.filter (fun r => decide (nm = r)))).length,
       if many then names.flatMap (fun nm => reqs.filter (fun r => decide (nm = r))) else []) := by
  induction names with
  | nil => cases many <;> rfl
  | cons nm rest ih =>
    simp only [tallyNames, ih, tallyOne_eq, List.flatMap_cons, List.length_append]
    cases many <;> simp

/-- Helper: closed form of the whole matching loop of main, flattening the
per-DLL name lists in encounter order. -/
theorem tallyAll_eq (tn : List (List (List Nat))) (reqs : List (List Nat)) (many : Bool) :
    tallyAll tn reqs many =
      ((tn.flatten.flatMap (fun nm => reqs.filter (fun r => decide (nm = r)))).length,
       if many then tn.flatten.flatMap (fun nm => reqs.filter (fun r => decide (nm = r)))
       else []) := by
  induction tn with
  | nil => cases many <;> rfl
  | cons l rest ih =>
    simp only [tallyAll, ih, tallyNames_eq, List.flatten_cons, List.flatMap_append,
      List.length_append]
    cases many <;> simp

/-- C7: the match count is the number of (extracted name, requested name)
pairs that compare equal, names compared byte-exactly, duplicates counted
once per equal pair; the matched-name list equals those pairs in encounter
order exactly when the many flag is set and is empty otherwise; a result is
emitted precisely when the count is nonzero; and an emitted payload has a
nonzero count with an empty matched list whenever at most one import name was
requested. -/
theorem match_count_semantics :
    (∀ (tn : List (List (List Nat))) (reqs : List (List Nat)) (many : Bool),
        (tallyAll tn reqs many).1 =
          (tn.flatten.flatMap (fun nm => reqs.filter (fun r => decide (nm = r)))).length) ∧
    (∀ (tn : List (List (List Nat))) (reqs : List (List Nat)),
        (tallyAll tn reqs true).2 =
          tn.flatten.flatMap (fun nm => reqs.filter (fun r => decide (nm = r)))) ∧
    (∀ (tn : List (List (List Nat))) (reqs : List (List Nat)),
        (tallyAll tn reqs false).2 = []) ∧
    (∀ (size : Nat) (t : Nat × List (List Nat)),
        emitResult size t = none ↔ t.1 = 0) ∧
    (∀ (reqs : List (List Nat)) (file : List Nat) (p : ScanPayload),
        processFile reqs file = .ok (some p) →
        p.importCount ≠ 0 ∧ (¬ 1 < reqs.length → p.matched = [])) := by
  refine ⟨?_, ?_, ?_, ?_, ?_⟩
  · intro tn reqs many; rw [tallyAll_eq]
  · intro tn reqs; simp [tallyAll_eq]
  · intro tn reqs; simp [tallyAll_eq]
  · intro size t
    unfold emitResult
    by_cases h : t.1 = 0 <;> simp [h]
  · intro reqs file p h
    unfold processFile at h
    cases h1 : readMagicNumber file with
    | error e => simp only [h1] at h; exact Except.noConfusion h
    | ok u =>
      cases h2 : readNtHeaders file with
      | error e => simp only [h1, h2] at h; exact Except.noConfusion h
      | ok nt =>
        cases h3 : readSections file nt.sectionsStart nt.numberOfSections with
        | error e => simp only [h1, h2, h3] at h; exact Except.noConfusion h
        | ok sections =>
          rcases h4 : readImportDescriptors file sections
              nt.importDirVA nt.importDirSize with ⟨r, tr⟩
          simp only [h1, h2, h3] at h
          rw [h4] at h
          cases r with
          | error e => simp only [tallyAndEmit] at h; exact Except.noConfusion h
          | ok res =>
            obtain ⟨ds, dlls, tn⟩ := res
            simp only [tallyAndEmit] at h
            have h5 : emitResult file.length
                (tallyAll tn reqs (decide (1 < reqs.length))) = some p := by
              simpa using h
            unfold emitResult at h5
            by_cases hne : (tallyAll tn reqs (decide (1 < reqs.length))).1 ≠ 0
            · rw [if_pos hne] at h5
              obtain rfl : (⟨file.length,
                  (tallyAll tn reqs (decide (1 < reqs.length))).1,
                  (tallyAll tn reqs (decide (1 < reqs.length))).2⟩ : ScanPayload) = p := by
                simpa using h5
              refine ⟨hne, fun hle => ?_⟩
              have hf : decide (1 < reqs.length) = false := decide_eq_false hle
              show (tallyAll tn reqs (decide (1 < reqs.length))).2 = []
              rw [hf, tallyAll_eq]
              simp
            · rw [if_neg hne] at h5; simp at h5

/-- C7 witness: concrete instances of the matching semantics, including the
emitted payload of the sample file under a single requested import. -/
theorem match_count_semantics_witness :
    (tallyAll [[[66]]] [[66], [67]] true).1 =
      (([[[66]]] : List (List (List Nat))).flatten.flatMap
        (fun nm => ([[66], [67]] : List (List Nat)).filter (fun r => decide (nm = r)))).length ∧
    (emitResult 490 (0, []) = none ↔ (0 : Nat) = 0) ∧
    ((⟨490, 1, []⟩ : ScanPayload).importCount ≠ 0 ∧
      (¬ 1 < ([[66]] : List (List Nat)).length → (⟨490, 1, []⟩ : ScanPayload).matched = [])) :=
  ⟨match_count_semantics.1 [[[66]]] [[66], [67]] true,
   match_count_semantics.2.2.2.1 490 (0, []),
   match_count_semantics.2.2.2.2 [[66]] sampleFile ⟨490, 1, []⟩ (by decide)⟩

/-- Helper: a stored name never exceeds 31 bytes, since the buffer is cut at
31 bytes before the forced terminator is taken into account. -/
theorem truncName_length_le (bs : List Nat) : (truncName bs).length ≤ 31 := by
  have h1 : ((bs.take 31).takeWhile (fun b => b ≠ 0)).length ≤ (bs.take 31).length :=
    (List.takeWhile_sublist (fun b => decide (b ≠ 0))).length_le
  exact le_trans h1 (List.length_take_le 31 bs)

/-- Helper: every symbol name produced by the thunk walk is a truncated
32-byte buffer, hence at most 31 bytes long. -/
theorem thunkWalk_names_le31 :
    ∀ (fuel : Nat) (file : List Nat) (sections : List SectionHeader) (off : Nat)
      (names : List (List Nat)),
      (thunkWalk file sections fuel off).1 = .ok names →
      ∀ nm ∈ names, nm.length ≤ 31 := by
  intro fuel
  induction fuel with
  | zero =>
    intro file sections off names h
    exact absurd h (by simp [thunkWalk])
  | succ f ih =>
    intro file sections off names h
    simp only [thunkWalk] at h
    cases h8 : readBytes file off 8 with
    | none => simp only [h8] at h; exact Except.noConfusion h
    | some tb =>
      simp only [h8] at h
      cases hh : readBytes file (sectionRvaFileOffset sections (le64 tb % 2 ^ 32)) 2 with
      | none => simp only [hh] at h; exact Except.noConfusion h
      | some hb =>
        simp only [hh] at h
        by_cases hmz : le16 hb = 0x5A4D
        · rw [if_pos hmz] at h
          obtain rfl : ([] : List (List Nat)) = names := by simpa using h
          simp
        · rw [if_neg hmz] at h
          cases hn : readBytes file
              (sectionRvaFileOffset sections (le64 tb % 2 ^ 32) + 2) 32 with
          | none => simp only [hn] at h; exact Except.noConfusion h
          | some nb =>
            simp only [hn] at h
            cases hww : (thunkWalk file sections f (off + 8)).1 with
            | error e => rw [hww] at h; exact absurd h (by simp [Except.map])
            | ok rest =>
              rw [hww] at h
              obtain rfl : truncName nb :: rest = names := by
                simpa [Except.map] using h
              intro nm hnm
              rcases List.mem_cons.mp hnm with hnm | hnm
              · subst hnm; exact truncName_length_le nb
              · exact ih file sections (off + 8) rest hww nm hnm

/-- Helper: taking k bytes of a buffer that holds a NUL-terminated string of
nonzero bytes and cutting at the first zero keeps exactly the first k bytes
of the string. -/
theorem takeWhile_take_nonzero :
    ∀ (k : Nat) (pre rest : List Nat), (∀ b ∈ pre, b ≠ 0) →
      ((pre ++ 0 :: rest).take k).takeWhile (fun b => b ≠ 0) = pre.take k := by
  intro k pre
  induction pre generalizing k with
  | nil =>
    intro rest _
    cases k with
    | zero => rfl
    | succ s => simp [List.takeWhile]
  | cons a pre ih =>
    intro rest h
    have ha : a ≠ 0 := h a (List.mem_cons_self a pre)
    cases k with
    | zero => rfl
    | succ s =>
      simp only [List.cons_append, List.take_succ_cons, List.takeWhile,
        decide_eq_true ha]
      exact congrArg (fun l => a :: l) (ih s rest (fun b hb => h b (List.mem_cons_of_mem a hb)))

/-- C5: every DLL name and symbol name the walker stores comes from a 32-byte
buffer forcibly terminated at its last byte, so each stored name is at most
31 bytes; in particular a name of 31, 32 or 100 nonzero bytes followed by a
NUL is stored as exactly its first 31 bytes, and the fixed buffer is never
overrun. -/
theorem name_truncation_bounded :
    (∀ (file : List Nat) (sections : List SectionHeader) (ds : List ImportDescriptor)
        (dlls : List (List Nat)) (thunks : List (List (List Nat))),
        (readDescriptorNames file sections ds).1 = .ok (dlls, thunks) →
        (∀ nm ∈ dlls, nm.length ≤ 31) ∧ (∀ l ∈ thunks, ∀ nm ∈ l, nm.length ≤ 31)) ∧
    (∀ bs : List Nat, (truncName bs).length ≤ 31) ∧
    (∀ (pre rest : List Nat), (∀ b ∈ pre, b ≠ 0) →
        truncName (pre ++ 0 :: rest) = pre.take 31) := by
  refine ⟨?_, truncName_length_le, ?_⟩
  · intro file sections ds
    induction ds with
    | nil =>
      intro dlls thunks h
      obtain ⟨h1, h2⟩ : ([] : List (List Nat)) = dlls ∧
          ([] : List (List (List Nat))) = thunks := by
        simpa [readDescriptorNames] using h
      subst h1; subst h2
      exact ⟨by simp, by simp⟩
    | cons d rest ih =>
      intro dlls thunks h
      cases h32 : readBytes file (sectionRvaFileOffset sections d.name) 32 with
      | none =>
        simp only [readDescriptorNames, h32] at h
        exact Except.noConfusion h
      | some nb =>
        rcases hw : thunkWalkRun file sections
            (sectionRvaFileOffset sections d.firstThunk) with ⟨r, tr⟩
        cases r with
        | error e =>
          simp only [readDescriptorNames, h32, hw] at h
          exact Except.noConfusion h
        | ok names =>
          rcases hr : readDescriptorNames file sections rest with ⟨r2, tr2⟩
          simp only [readDescriptorNames, h32, hw, hr] at h
          cases r2 with
          | error e => exact absurd h (by simp [Except.map])
          | ok p2 =>
            obtain ⟨dl2, tn2⟩ := p2
            obtain ⟨hd, ht⟩ : truncName nb :: dl2 = dlls ∧ names :: tn2 = thunks := by
              simpa [Except.map] using h
            subst hd; subst ht
            have ihr := ih dl2 tn2 (by rw [hr])
            have hw1 : (thunkWalk file sections (file.length + 1)
                (sectionRvaFileOffset sections d.firstThunk)).1 = .ok names := by
              have hfst := congrArg Prod.fst hw
              simpa [thunkWalkRun] using hfst
            constructor
            · intro nm hnm
              rcases List.mem_cons.mp hnm with hnm | hnm
              · subst hnm; exact truncName_length_le nb
              · exact ihr.1 nm hnm
            · intro l hl
              rcases List.mem_cons.mp hl with hl | hl
              · subst hl
                exact thunkWalk_names_le31 (file.length + 1) file sections _ l hw1
              · exact ihr.2 l hl
  · intro pre rest h
    unfold truncName
    exact takeWhile_take_nonzero 31 pre rest h

/-- C5 witness: the sample file stores the one-byte names 65 and 66, both
within the bound, and a 100-byte name is stored as its first 31 bytes. -/
theorem name_truncation_bounded_witness :
    (∀ nm ∈ [[65]], List.length nm ≤ 31) ∧
    (∀ l ∈ [[[66]]], ∀ nm ∈ l, List.length nm ≤ 31) ∧
    truncName (List.replicate 100 65 ++ 0 :: []) = (List.replicate 100 65).take 31 :=
  ⟨(name_truncation_bounded.1 sampleFile sampleSections [⟨0x1028, 0x1048⟩]
      [[65]] [[[66]]] (by decide)).1,
   (name_truncation_bounded.1 sampleFile sampleSections [⟨0x1028, 0x1048⟩]
      [[65]] [[[66]]] (by decide)).2,
   name_truncation_bounded.2.2 (List.replicate 100 65) [] (by decide)⟩

/-- Helper: iteration j + 1 of a walk starting at off0 reads the same thunk
entry as iteration j of a walk starting one entry later. -/
theorem thunkAddrAt_succ (file : List Nat) (off0 j : Nat) :
    thunkAddrAt file off0 (j + 1) = thunkAddrAt file (off0 + 8) j := by
  unfold thunkAddrAt
  have harith : off0 + 8 * (j + 1) = off0 + 8 + 8 * j := by ring
  rw [harith]

/-- Helper: shift of the per-iteration hint view by one entry. -/
theorem thunkHintAt_succ (file : List Nat) (sections : List SectionHeader) (off0 j : Nat) :
    thunkHintAt file sections off0 (j + 1) = thunkHintAt file sections (off0 + 8) j := by
  unfold thunkHintAt
  rw [thunkAddrAt_succ]

/-- Helper: shift of the per-iteration name view by one entry. -/
theorem thunkNameAt_succ (file : List Nat) (sections : List SectionHeader) (off0 j : Nat) :
    thunkNameAt file sections off0 (j + 1) = thunkNameAt file sections (off0 + 8) j := by
  unfold thunkNameAt
  rw [thunkAddrAt_succ]

/-- Helper, soundness half of the walk characterization: a successful walk
read a non-sentinel hint and stored one name at every iteration before the
end, and the hint at the stopping iteration is exactly the MZ value. -/
theorem thunkWalk_ok_hint_char :
    ∀ (fuel : Nat) (file : List Nat) (sections : List SectionHeader) (off0 : Nat)
      (names : List (List Nat)),
      (thunkWalk file sections fuel off0).1 = .ok names →
      (∀ j < names.length, ∃ h,
          thunkHintAt file sections off0 j = some h ∧ h ≠ 0x5A4D) ∧
      thunkHintAt file sections off0 names.length = some 0x5A4D ∧
      (∀ j < names.length, thunkNameAt file sections off0 j = some (names.getD j [])) := by
  intro fuel
  induction fuel with
  | zero =>
    intro file sections off0 names h
    exact absurd h (by simp [thunkWalk])
  | succ f ih =>
    intro file sections off0 names h
    simp only [thunkWalk] at h
    cases h8 : readBytes file off0 8 with
    | none => simp only [h8] at h; exact Except.noConfusion h
    | some tb =>
      simp only [h8] at h
      cases hh : readBytes file (sectionRvaFileOffset sections (le64 tb % 2 ^ 32)) 2 with
      | none => simp only [hh] at h; exact Except.noConfusion h
      | some hb =>
        simp only [hh] at h
        have haz : thunkAddrAt file off0 0 = some (le64 tb % 2 ^ 32) := by
          unfold thunkAddrAt
          norm_num [h8]
        have hh0 : thunkHintAt file sections off0 0 = some (le16 hb) := by
          unfold thunkHintAt
          rw [haz]
          show Option.map le16
            (readBytes file (sectionRvaFileOffset sections (le64 tb % 2 ^ 32)) 2) =
            some (le16 hb)
          rw [hh]
          rfl
        by_cases hmz : le16 hb = 0x5A4D
        · rw [if_pos hmz] at h
          obtain rfl : ([] : List (List Nat)) = names := by simpa using h
          exact ⟨by simp, hmz ▸ hh0, by simp⟩
        · rw [if_neg hmz] at h
          cases hn : readBytes file
              (sectionRvaFileOffset sections (le64 tb % 2 ^ 32) + 2) 32 with
          | none => simp only [hn] at h; exact Except.noConfusion h
          | some nb =>
            simp only [hn] at h
            cases hww : (thunkWalk file sections f (off0 + 8)).1 with
            | error e => rw [hww] at h; exact absurd h (by simp [Except.map])
            | ok rest =>
              rw [hww] at h
              obtain rfl : truncName nb :: rest = names := by
                simpa [Except.map] using h
              obtain ⟨ha, hsent, hc⟩ := ih file sections (off0 + 8) rest hww
              have hn0 : thunkNameAt file sections off0 0 = some (truncName nb) := by
                unfold thunkNameAt
                rw [haz]
                show Option.map truncName
                  (readBytes file
                    (sectionRvaFileOffset sections (le64 tb % 2 ^ 32) + 2) 32) =
                  some (truncName nb)
                rw [hn]
                rfl
              refine ⟨?_, ?_, ?_⟩
              · intro j hj
                cases j with
                | zero => exact ⟨le16 hb, hh0, hmz⟩
                | succ i =>
                  rw [thunkHintAt_succ]
                  exact ha i (by simp only [List.length_cons] at hj; omega)
              · show thunkHintAt file sections off0 (rest.length + 1) = some 0x5A4D
                rw [thunkHintAt_succ]
                exact hsent
              · intro j hj
                cases j with
                | zero => simpa using hn0
                | succ i =>
                  rw [thunkNameAt_succ]
                  have hci := hc i (by simp only [List.length_cons] at hj; omega)
                  simpa using hci

/-- Helper, completeness half of the walk characterization: whenever the
per-iteration reads yield non-sentinel hints and names for the first n
iterations and the MZ hint at iteration n, the walk with enough fuel
succeeds with exactly those n names. -/
theorem thunkWalk_ok_of_hints :
    ∀ (n fuel : Nat) (file : List Nat) (sections : List SectionHeader) (off0 : Nat)
      (names : List (List Nat)),
      names.length = n → n + 1 ≤ fuel →
      (∀ j < n, ∃ h, thunkHintAt file sections off0 j = some h ∧ h ≠ 0x5A4D) →
      thunkHintAt file sections off0 n = some 0x5A4D →
      (∀ j < n, thunkNameAt file sections off0 j = some (names.getD j [])) →
      (thunkWalk file sections fuel off0).1 = .ok names := by
  intro n
  induction n with
  | zero =>
    intro fuel file sections off0 names hlen hfuel hpre hsent hname
    obtain rfl : names = [] := List.length_eq_zero.mp hlen
    obtain ⟨f, rfl⟩ : ∃ f, fuel = f + 1 := ⟨fuel - 1, by omega⟩
    unfold thunkHintAt at hsent
    cases haz : thunkAddrAt file off0 0 with
    | none => rw [haz] at hsent; exact absurd hsent (by simp)
    | some a =>
      rw [haz] at hsent
      have hsent2 : (readBytes file (sectionRvaFileOffset sections a) 2).map le16 =
          some 0x5A4D := hsent
      cases hh : readBytes file (sectionRvaFileOffset sections a) 2 with
      | none => rw [hh] at hsent2; exact absurd hsent2 (by simp)
      | some hb =>
        rw [hh] at hsent2
        have hbmz : le16 hb = 0x5A4D := by simpa using hsent2
        unfold thunkAddrAt at haz
        cases h8 : readBytes file (off0 + 8 * 0) 8 with
        | none => rw [h8] at haz; exact absurd haz (by simp)
        | some tb =>
          rw [h8] at haz
          have ha : le64 tb % 2 ^ 32 = a := by simpa using haz
          rw [show off0 + 8 * 0 = off0 from by ring] at h8
          simp only [thunkWalk, h8, ha, hh]
          rw [if_pos hbmz]
  | succ m ih =>
    intro fuel file sections off0 names hlen hfuel hpre hsent hname
    obtain ⟨f, rfl⟩ : ∃ f, fuel = f + 1 := ⟨fuel - 1, by omega⟩
    obtain ⟨nm, rest, rfl⟩ : ∃ nm rest, names = nm :: rest := by
      cases names with
      | nil => simp at hlen
      | cons a b => exact ⟨a, b, rfl⟩
    obtain ⟨hv, hhint0, hvne⟩ := hpre 0 (Nat.succ_pos m)
    have hname0 := hname 0 (Nat.succ_pos m)
    unfold thunkHintAt at hhint0
    cases haz : thunkAddrAt file off0 0 with
    | none => rw [haz] at hhint0; exact absurd hhint0 (by simp)
    | some a =>
      rw [haz] at hhint0
      have hhint0b : (readBytes file (sectionRvaFileOffset sections a) 2).map le16 =
          some hv := hhint0
      cases hh : readBytes file (sectionRvaFileOffset sections a) 2 with
      | none => rw [hh] at hhint0b; exact absurd hhint0b (by simp)
      | some hb =>
        rw [hh] at hhint0b
        have hbv : le16 hb = hv := by simpa using hhint0b
        unfold thunkNameAt at hname0
        rw [haz] at hname0
        have hname0b : (readBytes file (sectionRvaFileOffset sections a + 2) 32).map
            truncName = some ((nm :: rest).getD 0 []) := hname0
        cases hn : readBytes file (sectionRvaFileOffset sections a + 2) 32 with
        | none => rw [hn] at hname0b; exact absurd hname0b (by simp)
        | some nb =>
          rw [hn] at hname0b
          have hnm : truncName nb = nm := by simpa using hname0b
          unfold thunkAddrAt at haz
          cases h8 : readBytes file (off0 + 8 * 0) 8 with
          | none => rw [h8] at haz; exact absurd haz (by simp)
          | some tb =>
            rw [h8] at haz
            have ha : le64 tb % 2 ^ 32 = a := by simpa using haz
            rw [show off0 + 8 * 0 = off0 from by ring] at h8
            have hrec : (thunkWalk file sections f (off0 + 8)).1 = .ok rest := by
              apply ih f file sections (off0 + 8) rest (by simpa using hlen) (by omega)
              · intro j hj
                have hs := hpre (j + 1) (by omega)
                rwa [thunkHintAt_succ] at hs
              · rw [← thunkHintAt_succ]
                exact hsent
              · intro j hj
                have hs := hname (j + 1) (by omega)
                rw [thunkNameAt_succ] at hs
                simpa using hs
            simp only [thunkWalk, h8, ha, hh]
            rw [if_neg (by rw [hbv]; exact hvne)]
            simp [hn, hrec, Except.map, hnm]

/-- C2: the thunk walk of one import descriptor succeeds with a given symbol
list exactly when the 2-byte hint read through every thunk entry before the
end differs from the legacy-executable magic 0x5A4D and contributes the
corresponding truncated name, and the hint read at the stopping iteration
equals 0x5A4D: termination of the walk is decided by the hint value alone,
never by the thunk entry value being zero. -/
theorem thunkWalk_sentinel_characterization :
    ∀ (file : List Nat) (sections : List SectionHeader) (off0 : Nat)
      (names : List (List Nat)),
      (thunkWalkRun file sections off0).1 = .ok names ↔
        ((∀ j < names.length, ∃ h,
            thunkHintAt file sections off0 j = some h ∧ h ≠ 0x5A4D) ∧
         thunkHintAt file sections off0 names.length = some 0x5A4D ∧
         (∀ j < names.length,
            thunkNameAt file sections off0 j = some (names.getD j []))) := by
  intro file sections off0 names
  constructor
  · exact thunkWalk_ok_hint_char (file.length + 1) file sections off0 names
  · rintro ⟨hpre, hsent, hname⟩
    have hb : names.length + 1 ≤ file.length + 1 := by
      unfold thunkHintAt at hsent
      cases haz : thunkAddrAt file off0 names.length with
      | none => rw [haz] at hsent; exact absurd hsent (by simp)
      | some a =>
        unfold thunkAddrAt at haz
        cases h8 : readBytes file (off0 + 8 * names.length) 8 with
        | none => rw [h8] at haz; exact absurd haz (by simp)
        | some tb =>
          have hle := readBytes_some_le h8
          omega
    exact thunkWalk_ok_of_hints names.length (file.length + 1) file sections off0 names
      rfl hb hpre hsent hname

/-- C2 witness: on the sample file the walk from offset 440 stops at the
second iteration, whose hint read lands on the MZ magic at offset 0, after
storing the single name 66 read at the first iteration. -/
theorem thunkWalk_sentinel_characterization_witness :
    (∀ j < ([[66]] : List (List Nat)).length, ∃ h,
        thunkHintAt sampleFile sampleSections 440 j = some h ∧ h ≠ 0x5A4D) ∧
    thunkHintAt sampleFile sampleSections 440 ([[66]] : List (List Nat)).length =
      some 0x5A4D ∧
    (∀ j < ([[66]] : List (List Nat)).length,
        thunkNameAt sampleFile sampleSections 440 j =
          some (([[66]] : List (List Nat)).getD j [])) :=
  (thunkWalk_sentinel_characterization sampleFile sampleSections 440 [[66]]).mp (by decide)

end Impfi
